import Mathlib

/-!
# Blog record service: handlers of `server/handlers/blog.go` and the startup of `server/main.go`

A shallow embedding of the five request handlers (`CreateBlog`, `ReadBlog`,
`UpdateBlog`, `DeleteBlog`, `ListBlogs`) and of the startup sequence of `main`.

The handlers talk to two collaborators that are not part of the repository: the
MongoDB driver (`primitive.ObjectID`, `*mongo.Collection`, `*mongo.Cursor`) and
the gRPC stream.  Both are modelled here by what the handlers observe of them.
-/

namespace BlogService

/-! ## `primitive.ObjectID` and its hexadecimal form -/

/-- One octet. -/
abbrev Byte := Fin 256

/-- The Go type `primitive.ObjectID`, an array of twelve octets. -/
structure ObjectID where
  bytes : List Byte
  size : bytes.length = 12

instance : DecidableEq ObjectID := fun a b =>
  match a, b with
  | ⟨x, _⟩, ⟨y, _⟩ =>
    if h : x = y then isTrue (by subst h; rfl)
    else isFalse (fun e => h (congrArg ObjectID.bytes e))

/-- The value `primitive.NilObjectID`: twelve zero octets. -/
def NilObjectID : ObjectID := ⟨List.replicate 12 0, rfl⟩

instance : Inhabited ObjectID := ⟨NilObjectID⟩

/-- The digit table of `encoding/hex`, the text "0123456789abcdef". -/
def hextable : String := "0123456789abcdef"

/-- The digit of `hextable` at index `n`. -/
def hexDigit (n : Nat) : Char := hextable.data.getD n '0'

/-- The function `fromHexChar` of `encoding/hex`: the value of one digit, in
either case, or nothing for any other character. -/
def fromHexChar (c : Char) : Option Nat :=
  if '0'.toNat ≤ c.toNat ∧ c.toNat ≤ '9'.toNat then some (c.toNat - '0'.toNat)
  else if 'a'.toNat ≤ c.toNat ∧ c.toNat ≤ 'f'.toNat then some (c.toNat - 'a'.toNat + 10)
  else if 'A'.toNat ≤ c.toNat ∧ c.toNat ≤ 'F'.toNat then some (c.toNat - 'A'.toNat + 10)
  else none

/-- The function `hex.EncodeToString` on a list of octets: two digits per octet,
the high half first. -/
def hexEncode : List Byte → List Char
  | [] => []
  | b :: rest => hexDigit (b.val / 16) :: hexDigit (b.val % 16) :: hexEncode rest

/-- The function `hex.DecodeString`: two digits make one octet; an odd number of
characters or a character that is no digit is an error. -/
def hexDecode : List Char → Option (List Byte)
  | [] => some []
  | [_] => none
  | a :: b :: rest =>
    match fromHexChar a, fromHexChar b, hexDecode rest with
    | some x, some y, some bs => some (Fin.ofNat (x * 16 + y) :: bs)
    | _, _, _ => none

/-- The method `ObjectID.Hex`: the twenty-four lower-case digits of the twelve
octets. -/
def ObjectID.Hex (oid : ObjectID) : String := String.mk (hexEncode oid.bytes)

/-- The function `primitive.ObjectIDFromHex`: the text must be twenty-four
characters long and consist of hexadecimal digits; otherwise the result is an
error (here `none`).  A text that passes has only one-byte characters, so that
its length in characters is its length in bytes. -/
def ObjectIDFromHex (s : String) : Option ObjectID :=
  if s.length = 24 then
    match hexDecode s.data with
    | some bs => if h : bs.length = 12 then some ⟨bs, h⟩ else none
    | none => none
  else none

/-! ## Messages of the `blog` protocol -/

/-- Modelled from the spec: the message `blog_proto.Blog` of the generated
package `server/protos/blog`, which is not among the sources.  The wire form of
a record carries the same four fields, the identifier as a string. -/
structure Blog where
  Id : String
  AuthorId : String
  Title : String
  Content : String
deriving DecidableEq, Repr

/-- Modelled from the spec: the generated getter `GetId`, which yields the empty
string on a nil message. -/
def Blog.GetId : Option Blog → String
  | none => ""
  | some b => b.Id

/-- Modelled from the spec: the generated getter `GetAuthorId`, which yields the
empty string on a nil message. -/
def Blog.GetAuthorId : Option Blog → String
  | none => ""
  | some b => b.AuthorId

/-- Modelled from the spec: the generated getter `GetTitle`, which yields the
empty string on a nil message. -/
def Blog.GetTitle : Option Blog → String
  | none => ""
  | some b => b.Title

/-- Modelled from the spec: the generated getter `GetContent`, which yields the
empty string on a nil message. -/
def Blog.GetContent : Option Blog → String
  | none => ""
  | some b => b.Content

/-- Modelled from the spec: the request of `CreateBlog`; the payload is a
pointer and may be nil. -/
structure CreateBlogReq where
  Blog : Option Blog
deriving DecidableEq, Repr

/-- Modelled from the spec: the response of `CreateBlog`. -/
structure CreateBlogRes where
  Blog : Blog
deriving DecidableEq, Repr

/-- Modelled from the spec: the request of `ReadBlog`. -/
structure ReadBlogReq where
  Id : String
deriving DecidableEq, Repr

/-- Modelled from the spec: the response of `ReadBlog`. -/
structure ReadBlogRes where
  Blog : Blog
deriving DecidableEq, Repr

/-- Modelled from the spec: the request of `UpdateBlog`; the payload is a
pointer and may be nil. -/
structure UpdateBlogReq where
  Blog : Option Blog
deriving DecidableEq, Repr

/-- Modelled from the spec: the response of `UpdateBlog`. -/
structure UpdateBlogRes where
  Blog : Blog
deriving DecidableEq, Repr

/-- Modelled from the spec: the request of `DeleteBlog`. -/
structure DeleteBlogReq where
  Id : String
deriving DecidableEq, Repr

/-- Modelled from the spec: the response of `DeleteBlog`. -/
structure DeleteBlogRes where
  Success : Bool
deriving DecidableEq, Repr

/-- Modelled from the spec: the message `ListBlogs` puts on its stream. -/
structure ListBlogsRes where
  Blog : Blog
deriving DecidableEq, Repr

/-- The status codes of `google.golang.org/grpc/codes` the handlers use. -/
inductive Code where
  | InvalidArgument
  | NotFound
  | Internal
  | Unavailable
deriving DecidableEq, Repr

/-- What a call of a handler comes to: a response with a nil error, a nil
response with a status error (the text of the message is not modelled), or a
run-time fault (a nil dereference) that ends the handler without either. -/
inductive Outcome (α : Type) where
  | ok (res : α)
  | status (code : Code)
  | fault
deriving DecidableEq, Repr

/-! ## Documents and the record type -/

/-- A value of an element of a stored document: a string, an object identifier,
null, or a 32-bit integer, which stands for the kinds of value that the decoder
of a Go string rejects. -/
inductive Value where
  | string (s : String)
  | objectID (o : ObjectID)
  | null
  | int32 (n : Int)
deriving DecidableEq

/-- The value a stored document has under `_id`: an object identifier, or a
value of another kind that does not decode into an `ObjectID`. -/
inductive IDValue where
  | objectID (o : ObjectID)
  | int32 (n : Int)
deriving DecidableEq

/-- A document of the collection: every stored document has an `_id`; the other
elements are kept in their order. -/
structure Document where
  id : IDValue
  elems : List (String × Value)
deriving DecidableEq

/-- Modelled from the spec: the record type `entity.BlogItem` of the package
`server/entity`, which is not among the sources.  It has the four fields the
handlers use; `ID` is the store-native identifier, kept under `_id` and left
out of the document while unset, so that the store assigns it on insert. -/
structure BlogItem where
  ID : ObjectID
  AuthorID : String
  Title : String
  Content : String
deriving DecidableEq

/-- The zero value `entity.BlogItem{}`. -/
def BlogItem.zero : BlogItem := ⟨NilObjectID, "", "", ""⟩

/-- The three string fields of `entity.BlogItem`. -/
inductive Field where
  | AuthorID
  | Title
  | Content
deriving DecidableEq, Repr

/-- The struct tags of `entity.BlogItem`, which the sources do not show: the
key under which each string field is written, and the field, if any, to which
the decoder resolves the key of a document element. -/
structure Tags where
  keyOf : Field → String
  fieldOf : String → Option Field

/-- The tags are coherent when the key a field is written under is resolved to
that field again. -/
def Tags.Coherent (tags : Tags) : Prop := ∀ f, tags.fieldOf (tags.keyOf f) = some f

/-- The usual tags: `author_id`, `title`, `content`, resolved by equality. -/
def Tags.usual : Tags where
  keyOf := fun f =>
    match f with
    | .AuthorID => "author_id"
    | .Title => "title"
    | .Content => "content"
  fieldOf := fun k =>
    if k = "author_id" then some .AuthorID
    else if k = "title" then some .Title
    else if k = "content" then some .Content
    else none

/-- What the driver's decoder of a Go string makes of a value: a string is taken
as it is, an object identifier gives its hexadecimal form, null gives the empty
string, and a 32-bit integer is an error (`none`). -/
def Value.asString : Value → Option String
  | .string s => some s
  | .objectID o => some o.Hex
  | .null => some ""
  | .int32 _ => none

/-- Assignment to one string field of a record. -/
def BlogItem.set (item : BlogItem) (f : Field) (s : String) : BlogItem :=
  match f with
  | .AuthorID => { item with AuthorID := s }
  | .Title => { item with Title := s }
  | .Content => { item with Content := s }

/-- The value of one string field of a record. -/
def BlogItem.get (item : BlogItem) (f : Field) : String :=
  match f with
  | .AuthorID => item.AuthorID
  | .Title => item.Title
  | .Content => item.Content

/-- Marshalling of a record: the three string fields under their keys; `ID` is
written only when it is set. -/
def Marshal (tags : Tags) (item : BlogItem) : Option ObjectID × List (String × Value) :=
  (if item.ID = NilObjectID then none else some item.ID,
   [(tags.keyOf .AuthorID, .string item.AuthorID),
    (tags.keyOf .Title, .string item.Title),
    (tags.keyOf .Content, .string item.Content)])

/-- Decoding of the elements of a document into a record, in their order: an
element whose key resolves to no field is skipped; for an element whose key
resolves to a field, what the decoder of a Go string makes of the value is
stored in the field, and a value that decoder rejects is an error.  Fields for
which the document has no element keep the value they had. -/
def decodeElems (tags : Tags) : List (String × Value) → BlogItem → Option BlogItem
  | [], item => some item
  | (k, v) :: rest, item =>
    match tags.fieldOf k with
    | none => decodeElems tags rest item
    | some f =>
      match v.asString with
      | some s => decodeElems tags rest (item.set f s)
      | none => none

/-- Decoding of a document into the record `item` points to (`Decode` of a
`SingleResult` or of a `Cursor`): `_id` goes to `ID`, the elements to the
string fields; `none` is a decoding error. -/
def Decode (tags : Tags) (doc : Document) (item : BlogItem) : Option BlogItem :=
  match doc.id with
  | .objectID o => decodeElems tags doc.elems { item with ID := o }
  | .int32 _ => none

/-! ## The store, the stream and the package variables -/

/-- The collection behind `blogDBC` as the handlers see it: its documents in
cursor order, whether the deployment answers commands with an error, and, if a
cursor over the collection breaks, after how many documents it does. -/
structure Store where
  docs : List Document
  down : Bool
  cursorBreak : Option Nat
deriving DecidableEq

/-- A cursor: the documents it still yields, and whether `Err` reports an error
once `Next` has returned false. -/
structure Cursor where
  pending : List Document
  err : Bool
deriving DecidableEq

/-- The server side of the stream of `ListBlogs`: the messages delivered so far,
the number of `Send` calls made, and, if the caller goes away, the number of
`Send` calls after which every further `Send` fails. -/
structure Stream where
  delivered : List ListBlogsRes
  calls : Nat
  brokenAfter : Option Nat
deriving DecidableEq

/-- A call on a collaborator, as recorded in the log. -/
inductive Event where
  | InsertOne (elems : List (String × Value))
  | FindOne (oid : ObjectID)
  | FindOneAndUpdate (oid : ObjectID) (update : List (String × Value))
  | DeleteOne (oid : ObjectID)
  | Find
  | CursorNext
  | CursorDecode
  | CursorErr
  | CursorClose
  | Send (msg : ListBlogsRes) (ok : Bool)
deriving DecidableEq

/-- A handle on a collection: the names of the database and of the collection. -/
structure Collection where
  db : String
  name : String
deriving DecidableEq, Repr

/-- The three package-level variables each of the two packages declares; a nil
pointer or interface is `none`.  A context counts as `some ()`. -/
structure Vars where
  mongoClient : Option Unit
  blogDBC : Option Collection
  mongoCtx : Option Unit
deriving DecidableEq, Repr

/-- The package-level variables of the program: those of package `main` and
those of package `handlers`. -/
structure Globals where
  main : Vars
  handlers : Vars
deriving DecidableEq, Repr

/-- The variables as the Go runtime initialises them: all nil. -/
def Globals.zero : Globals := ⟨⟨none, none, none⟩, ⟨none, none, none⟩⟩

/-- The state a handler runs in: the package variables, the store and the log
of the calls made on the collaborators. -/
structure World where
  globals : Globals
  store : Store
  log : List Event
deriving DecidableEq

/-- Appends a call to the log. -/
def World.record (w : World) (e : Event) : World := { w with log := w.log ++ [e] }

/-- Whether the document has the object identifier `oid` under `_id`: the filter
of the form bson.M("_id": oid). -/
def Document.hasID (oid : ObjectID) (d : Document) : Bool := decide (d.id = .objectID oid)

/-- `InsertOne` of the driver on a marshalled record: a document without `_id`
gets the identifier `newOID` the driver generates; the server refuses a document
whose `_id` is already taken; otherwise the document is added at the end and
its `_id` is returned as `InsertedID`. -/
def Collection.InsertOne (tags : Tags) (newOID : ObjectID) (w : World) (data : BlogItem) :
    Option ObjectID × World :=
  let m := Marshal tags data
  let w1 := w.record (.InsertOne m.2)
  let oid := m.1.getD newOID
  if w1.store.down then (none, w1)
  else if w1.store.docs.any (Document.hasID oid) then (none, w1)
  else (some oid, { w1 with store := { w1.store with docs := w1.store.docs ++ [⟨.objectID oid, m.2⟩] } })

/-- `FindOne` of the driver with the filter on `_id`: the first document with
that identifier; `none` stands for a result whose `Decode` returns an error
(the command failed, or there is no such document). -/
def Collection.FindOne (w : World) (oid : ObjectID) : Option Document × World :=
  let w1 := w.record (.FindOne oid)
  if w1.store.down then (none, w1)
  else (w1.store.docs.find? (Document.hasID oid), w1)

/-- The update operator `$set` for one element: the value under the key is
replaced where the key is present, and the element is added at the end where it
is not. -/
def setElem (k : String) (v : Value) : List (String × Value) → List (String × Value)
  | [] => [(k, v)]
  | (k1, v1) :: rest => if k1 = k then (k, v) :: rest else (k1, v1) :: setElem k v rest

/-- The update operator `$set` for a list of elements. -/
def setElems (update : List (String × Value)) (elems : List (String × Value)) :
    List (String × Value) :=
  update.foldl (fun acc kv => setElem kv.1 kv.2 acc) elems

/-- Applies `$set` to the first document with the identifier `oid`; returns the
updated document, if there is one, and the new list of documents. -/
def updateFirst (oid : ObjectID) (update : List (String × Value)) :
    List Document → Option Document × List Document
  | [] => (none, [])
  | d :: rest =>
    if Document.hasID oid d then
      let d1 : Document := { d with elems := setElems update d.elems }
      (some d1, d1 :: rest)
    else
      let r := updateFirst oid update rest
      (r.1, d :: r.2)

/-- `FindOneAndUpdate` of the driver with the filter on `_id`, the update
`$set` and the option to return the document as it is after the update; `none`
stands for a result whose `Decode` returns an error. -/
def Collection.FindOneAndUpdate (w : World) (oid : ObjectID) (update : List (String × Value)) :
    Option Document × World :=
  let w1 := w.record (.FindOneAndUpdate oid update)
  if w1.store.down then (none, w1)
  else
    let r := updateFirst oid update w1.store.docs
    (r.1, { w1 with store := { w1.store with docs := r.2 } })

/-- Removes the first document with the identifier `oid`; returns the number of
documents removed and the new list of documents. -/
def deleteFirst (oid : ObjectID) : List Document → Nat × List Document
  | [] => (0, [])
  | d :: rest =>
    if Document.hasID oid d then (1, rest)
    else
      let r := deleteFirst oid rest
      (r.1, d :: r.2)

/-- `DeleteOne` of the driver with the filter on `_id`: an error (`none`) only
when the command fails; otherwise the result with the number of documents
deleted, which is zero when no document has the identifier. -/
def Collection.DeleteOne (w : World) (oid : ObjectID) : Option Nat × World :=
  let w1 := w.record (.DeleteOne oid)
  if w1.store.down then (none, w1)
  else
    let r := deleteFirst oid w1.store.docs
    (some r.1, { w1 with store := { w1.store with docs := r.2 } })

/-- `Find` of the driver with the empty filter: an error (`none`) when the
command fails, otherwise a cursor over all the documents, or, when the cursor
breaks, over those it yields before it does. -/
def Collection.Find (w : World) : Option Cursor × World :=
  let w1 := w.record .Find
  if w1.store.down then (none, w1)
  else
    match w1.store.cursorBreak with
    | none => (some ⟨w1.store.docs, false⟩, w1)
    | some n => (some ⟨w1.store.docs.take n, true⟩, w1)

/-- `Send` on the stream: the message is delivered and the error is nil (`true`)
unless the caller has gone away. -/
def Stream.Send (st : Stream) (msg : ListBlogsRes) : Bool × Stream :=
  match st.brokenAfter with
  | none => (true, { st with delivered := st.delivered ++ [msg], calls := st.calls + 1 })
  | some n =>
    if st.calls < n then (true, { st with delivered := st.delivered ++ [msg], calls := st.calls + 1 })
    else (false, { st with calls := st.calls + 1 })

/-! ## The handlers of `server/handlers/blog.go` -/

/-- The handler `CreateBlog`.  `newOID` is the identifier the driver generates
for the document during this call.  A method call on a nil `blogDBC` and the
assignment to a field of a nil payload are faults. -/
def CreateBlog (tags : Tags) (newOID : ObjectID) (w : World) (req : CreateBlogReq) :
    Outcome CreateBlogRes × World :=
  let blog := req.Blog
  let data : BlogItem :=
    { ID := NilObjectID
      AuthorID := Blog.GetAuthorId blog
      Title := Blog.GetTitle blog
      Content := Blog.GetContent blog }
  match w.globals.handlers.blogDBC with
  | none => (.fault, w)
  | some _ =>
    match Collection.InsertOne tags newOID w data with
    | (none, w1) => (.status .Internal, w1)
    | (some oid, w1) =>
      match blog with
      | none => (.fault, w1)
      | some b => (.ok ⟨{ b with Id := oid.Hex }⟩, w1)

/-- The handler `ReadBlog`. -/
def ReadBlog (tags : Tags) (w : World) (req : ReadBlogReq) : Outcome ReadBlogRes × World :=
  let id := req.Id
  match ObjectIDFromHex id with
  | none => (.status .InvalidArgument, w)
  | some oid =>
    match w.globals.handlers.blogDBC with
    | none => (.fault, w)
    | some _ =>
      match Collection.FindOne w oid with
      | (result, w1) =>
        match result.bind (fun doc => Decode tags doc BlogItem.zero) with
        | none => (.status .NotFound, w1)
        | some blog =>
          (.ok ⟨{ Id := oid.Hex, AuthorId := blog.AuthorID, Title := blog.Title,
                  Content := blog.Content }⟩, w1)

/-- The handler `UpdateBlog`.  The update document is written with its three
elements in the order of the source. -/
def UpdateBlog (tags : Tags) (w : World) (req : UpdateBlogReq) : Outcome UpdateBlogRes × World :=
  let blog := req.Blog
  match ObjectIDFromHex (Blog.GetId blog) with
  | none => (.status .InvalidArgument, w)
  | some oid =>
    let update : List (String × Value) :=
      [("authord_id", .string (Blog.GetAuthorId blog)),
       ("title", .string (Blog.GetTitle blog)),
       ("content", .string (Blog.GetContent blog))]
    match w.globals.handlers.blogDBC with
    | none => (.fault, w)
    | some _ =>
      match Collection.FindOneAndUpdate w oid update with
      | (result, w1) =>
        match result.bind (fun doc => Decode tags doc BlogItem.zero) with
        | none => (.status .NotFound, w1)
        | some decoded =>
          (.ok ⟨{ Id := decoded.ID.Hex, AuthorId := decoded.AuthorID, Title := decoded.Title,
                  Content := decoded.Content }⟩, w1)

/-- The handler `DeleteBlog`. -/
def DeleteBlog (w : World) (req : DeleteBlogReq) : Outcome DeleteBlogRes × World :=
  let id := req.Id
  match ObjectIDFromHex id with
  | none => (.status .InvalidArgument, w)
  | some oid =>
    match w.globals.handlers.blogDBC with
    | none => (.fault, w)
    | some _ =>
      match Collection.DeleteOne w oid with
      | (none, w1) => (.status .NotFound, w1)
      | (some _, w1) => (.ok ⟨true⟩, w1)

/-- What the loop of `ListBlogs` leaves behind: whether it was left by the
return on a decoding error, the calls it made, in order, and the stream. -/
structure LoopResult where
  decodeFailed : Bool
  events : List Event
  stream : Stream
deriving DecidableEq

/-- The loop of `ListBlogs` over the documents the cursor yields.  `data` is the
one record, allocated before the loop, into which every document is decoded.
The result of `Send` is not looked at. -/
def listLoop (tags : Tags) : List Document → BlogItem → Stream → LoopResult
  | [], _, st => ⟨false, [.CursorNext], st⟩
  | d :: rest, data, st =>
    match Decode tags d data with
    | none => ⟨true, [.CursorNext, .CursorDecode], st⟩
    | some data1 =>
      let msg : ListBlogsRes :=
        ⟨{ Id := data1.ID.Hex, AuthorId := data1.AuthorID, Content := data1.Content,
           Title := data1.Title }⟩
      let sent := st.Send msg
      let r := listLoop tags rest data1 sent.2
      { r with events := .CursorNext :: .CursorDecode :: .Send msg sent.1 :: r.events }

/-- The handler `ListBlogs`.  The deferred `Close` of the cursor runs at every
return that comes after the cursor was obtained. -/
def ListBlogs (tags : Tags) (w : World) (stream : Stream) : Outcome Unit × World × Stream :=
  let data := BlogItem.zero
  match w.globals.handlers.blogDBC with
  | none => (.fault, w, stream)
  | some _ =>
    match Collection.Find w with
    | (none, w1) => (.status .Internal, w1, stream)
    | (some cursor, w1) =>
      let r := listLoop tags cursor.pending data stream
      if r.decodeFailed then
        (.status .Unavailable, { w1 with log := w1.log ++ r.events ++ [.CursorClose] }, r.stream)
      else if cursor.err then
        (.status .Internal,
          { w1 with log := w1.log ++ r.events ++ [.CursorErr, .CursorClose] }, r.stream)
      else
        (.ok (), { w1 with log := w1.log ++ r.events ++ [.CursorErr, .CursorClose] }, r.stream)

/-! ## The startup of `server/main.go` -/

/-- What the environment answers during startup: whether `net.Listen`,
`mongo.Connect` and `Ping` return an error. -/
structure Startup where
  listenErr : Bool
  connectErr : Bool
  pingErr : Bool
deriving DecidableEq, Repr

/-- The function `main` up to the point where the server starts to serve: the
package variables as they are then, or `none` when `log.Fatal` ends the
process before.  The assignments are those to `mongoCtx` and `blogDBC` of
package `main`. -/
def main (env : Startup) (g : Globals) : Option Globals :=
  if env.listenErr then none
  else
    let g1 : Globals := { g with main := { g.main with mongoCtx := some () } }
    if env.connectErr then none
    else if env.pingErr then none
    else some { g1 with main := { g1.main with blogDBC := some ⟨"mydb", "blog"⟩ } }

/-- A call the transport makes on the service. -/
inductive Call where
  | Create (newOID : ObjectID) (req : CreateBlogReq)
  | Read (req : ReadBlogReq)
  | Update (req : UpdateBlogReq)
  | Delete (req : DeleteBlogReq)
  | List (stream : Stream)

/-- The state after one call. -/
def serveOne (tags : Tags) (w : World) : Call → World
  | .Create newOID req => (CreateBlog tags newOID w req).2
  | .Read req => (ReadBlog tags w req).2
  | .Update req => (UpdateBlog tags w req).2
  | .Delete req => (DeleteBlog w req).2
  | .List stream => (ListBlogs tags w stream).2.1

/-- The state after a sequence of calls. -/
def serve (tags : Tags) (w : World) (calls : List Call) : World :=
  calls.foldl (serveOne tags) w

/-! ## Worlds used in the examples -/

/-- The identifier whose last octet is `n` and whose other octets are zero. -/
def oidOf (n : Byte) : ObjectID := ⟨List.replicate 11 0 ++ [n], by simp⟩

/-- The package variables with `blogDBC` of package `handlers` bound to the
collection, as the handlers need it. -/
def Globals.bound : Globals := ⟨⟨none, none, none⟩, ⟨none, some ⟨"mydb", "blog"⟩, none⟩⟩

/-- A world whose collection holds the given documents and answers every
command. -/
def World.holding (docs : List Document) : World := ⟨Globals.bound, ⟨docs, false, none⟩, []⟩

/-- A stream on which nothing was sent yet and whose caller stays. -/
def Stream.fresh : Stream := ⟨[], 0, none⟩

/-- The author a document carries for the decoder: what the last element whose
key resolves to `AuthorID` decodes to, or `a` when there is none. -/
def authorOf (tags : Tags) : List (String × Value) → String → String
  | [], a => a
  | (k, v) :: rest, a =>
    match tags.fieldOf k, v.asString with
    | some .AuthorID, some s => authorOf tags rest s
    | _, _ => authorOf tags rest a

/-- A stored record as `CreateBlog` writes it with the usual tags. -/
def storedBlog (oid : ObjectID) (a t c : String) : Document :=
  ⟨.objectID oid, [("author_id", .string a), ("title", .string t), ("content", .string c)]⟩

/-- The messages passed to `Send`, in the order of the calls. -/
def sends : List Event → List ListBlogsRes
  | [] => []
  | .Send msg _ :: rest => msg :: sends rest
  | _ :: rest => sends rest

/-- The number of calls of `Close` on a cursor. -/
def closes (evs : List Event) : Nat := evs.count Event.CursorClose

/-- A call without its result: the flag of a `Send` is set to true. -/
def Event.call : Event → Event
  | .Send msg _ => .Send msg true
  | e => e

/-- The calls that follow the first `Send` that failed. -/
def afterFailedSend : List Event → List Event
  | [] => []
  | .Send _ false :: rest => rest
  | _ :: rest => afterFailedSend rest

/-- Whether the call takes a record from the cursor or sends one. -/
def Event.fetchesOrSends : Event → Bool
  | .CursorNext => true
  | .CursorDecode => true
  | .Send _ _ => true
  | _ => false

/-- The identifier of a document in string form (empty when `_id` is no object
identifier). -/
def Document.hex (d : Document) : String :=
  match d.id with
  | .objectID o => o.Hex
  | .int32 _ => ""

/-- Three stored documents of which the second does not decode: its title is
a number. -/
def threeWithBadSecond : List Document :=
  [storedBlog (oidOf 1) "A" "T1" "C1",
   ⟨.objectID (oidOf 2), [("author_id", .string "B"), ("title", .int32 5)]⟩,
   storedBlog (oidOf 3) "C" "T3" "C3"]

/-- Three stored documents: a complete record, a record without an element for
its content, and a document that does not decode, its title being a number. -/
def twoThenUndecodable (a1 t1 c1 a2 t2 : String) : List Document :=
  [storedBlog (oidOf 1) a1 t1 c1,
   ⟨.objectID (oidOf 2), [("author_id", .string a2), ("title", .string t2)]⟩,
   ⟨.objectID (oidOf 3), [("title", .int32 5)]⟩]

/-- Two stored records. -/
def twoStored : List Document :=
  [storedBlog (oidOf 1) "A" "T1" "C1", storedBlog (oidOf 2) "B" "T2" "C2"]

/-- A stream whose caller has gone away before the first `Send`. -/
def Stream.gone : Stream := ⟨[], 0, some 0⟩

/-- Whether the document has an element for each of the three string fields. -/
def Document.complete (tags : Tags) (d : Document) : Bool :=
  [Field.AuthorID, Field.Title, Field.Content].all
    (fun f => d.elems.any (fun kv => decide (tags.fieldOf kv.1 = some f)))

/-- The record a document stands for, in wire form: what decoding into a fresh
`entity.BlogItem` gives, as `ReadBlog` does it; `none` when it does not decode. -/
def Document.blog (tags : Tags) (d : Document) : Option Blog :=
  (Decode tags d BlogItem.zero).map
    (fun item => ⟨item.ID.Hex, item.AuthorID, item.Title, item.Content⟩)

/-! ## Identifiers -/

@[simp] theorem Value.asString_string (s : String) : (Value.string s).asString = some s := rfl


theorem fromHexChar_hexDigit (n : Nat) (h : n < 16) : fromHexChar (hexDigit n) = some n := by
  interval_cases n <;> rfl

theorem hexDecode_hexEncode (bs : List Byte) : hexDecode (hexEncode bs) = some bs := by
  induction bs with
  | nil => rfl
  | cons b rest ih =>
    have h1 : b.val / 16 < 16 := by omega
    have h2 : b.val % 16 < 16 := by omega
    have h3 : (Fin.ofNat (b.val / 16 * 16 + b.val % 16) : Byte) = b := by
      apply Fin.ext
      simp [Fin.ofNat]
      omega
    simp [hexEncode, hexDecode, fromHexChar_hexDigit _ h1, fromHexChar_hexDigit _ h2, ih, h3]

theorem length_hexEncode (bs : List Byte) : (hexEncode bs).length = 2 * bs.length := by
  induction bs with
  | nil => rfl
  | cons b rest ih => simp [hexEncode, ih]; omega

/-- Decoding the hexadecimal form of an identifier gives the identifier back. -/
theorem ObjectIDFromHex_Hex (oid : ObjectID) : ObjectIDFromHex oid.Hex = some oid := by
  obtain ⟨bs, hs⟩ := oid
  simp [ObjectIDFromHex, ObjectID.Hex, String.length, length_hexEncode, hs, hexDecode_hexEncode]

theorem pairs_induction {α : Type} {P : List α → Prop} (h0 : P []) (h1 : ∀ a, P [a])
    (h2 : ∀ a b l, P l → P (a :: b :: l)) : ∀ l, P l
  | [] => h0
  | [a] => h1 a
  | a :: b :: l => h2 a b l (pairs_induction h0 h1 h2 l)

theorem hexDecode_length (l : List Char) :
    ∀ bs, hexDecode l = some bs → l.length = 2 * bs.length := by
  induction l using pairs_induction with
  | h0 => intro bs h; simp [hexDecode] at h; subst h; rfl
  | h1 c => intro bs h; simp [hexDecode] at h
  | h2 a b rest ih =>
    intro bs h
    simp only [hexDecode] at h
    cases ha : fromHexChar a <;> cases hb : fromHexChar b <;> cases hr : hexDecode rest <;>
      simp [ha, hb, hr] at h
    subst h
    have := ih _ hr
    simp [this]
    omega

theorem hexDecode_eq_none_iff (l : List Char) :
    hexDecode l = none ↔ (l.length % 2 = 1 ∨ ∃ c ∈ l, fromHexChar c = none) := by
  induction l using pairs_induction with
  | h0 => simp [hexDecode]
  | h1 c => simp [hexDecode]
  | h2 a b rest ih =>
    have hlen : (a :: b :: rest).length % 2 = rest.length % 2 := by
      simp only [List.length_cons]
      omega
    have hex : (∃ c ∈ a :: b :: rest, fromHexChar c = none) ↔
        (fromHexChar a = none ∨ fromHexChar b = none ∨ ∃ c ∈ rest, fromHexChar c = none) := by
      simp only [List.mem_cons, exists_eq_or_imp]
    rw [hlen, hex]
    simp only [hexDecode]
    cases ha : fromHexChar a with
    | none => simp
    | some x =>
      cases hb : fromHexChar b with
      | none => simp
      | some y =>
        cases hr : hexDecode rest with
        | none =>
          have := ih.1 hr
          simp only [true_iff]
          tauto
        | some r =>
          have hn : ¬ (rest.length % 2 = 1 ∨ ∃ c ∈ rest, fromHexChar c = none) := by
            intro h
            have := ih.2 h
            rw [hr] at this
            cases this
          refine ⟨fun h => (by cases h), fun h => ?_⟩
          exfalso
          apply hn
          rcases h with h | h | h | h
          · exact Or.inl h
          · cases h
          · cases h
          · exact Or.inr h

/-- An identifier string fails to decode exactly when its length is not
twenty-four or one of its characters is not a hexadecimal digit. -/
theorem ObjectIDFromHex_eq_none_iff (s : String) :
    ObjectIDFromHex s = none ↔ (s.length ≠ 24 ∨ ∃ c ∈ s.data, fromHexChar c = none) := by
  unfold ObjectIDFromHex
  by_cases hl : s.length = 24
  · have hl2 : s.data.length = 24 := hl
    simp only [hl, if_true, ne_eq, not_true_eq_false, false_or]
    cases hd : hexDecode s.data with
    | none =>
      have := (hexDecode_eq_none_iff s.data).1 hd
      rcases this with h | h
      · omega
      · simpa using h
    | some bs =>
      have h12 : bs.length = 12 := by
        have := hexDecode_length _ _ hd
        omega
      simp only [h12, dite_true]
      constructor
      · intro h; cases h
      · intro h
        have : hexDecode s.data = none := (hexDecode_eq_none_iff s.data).2 (Or.inr h)
        rw [hd] at this
        cases this
  · simp [hl]

/-! ## Malformed identifiers -/

/-- C1: for every identifier string that does not decode to an `ObjectID` and
every state, `ReadBlog`, `UpdateBlog` and `DeleteBlog` return the status
invalid-argument without a response, and the state, that is the store and the
log of the calls made on it, is the one they were called in. -/
theorem malformed_id_is_invalid_argument (tags : Tags) (w : World) (id : String)
    (blog : Option Blog) (hid : ObjectIDFromHex id = none) (hblog : Blog.GetId blog = id) :
    ReadBlog tags w ⟨id⟩ = (Outcome.status Code.InvalidArgument, w) ∧
    UpdateBlog tags w ⟨blog⟩ = (Outcome.status Code.InvalidArgument, w) ∧
    DeleteBlog w ⟨id⟩ = (Outcome.status Code.InvalidArgument, w) := by
  refine ⟨?_, ?_, ?_⟩
  · simp [ReadBlog, hid]
  · simp [UpdateBlog, hblog, hid]
  · simp [DeleteBlog, hid]

theorem malformed_id_is_invalid_argument_witness :
    ObjectIDFromHex "5f1a" = none ∧
    ReadBlog Tags.usual (World.holding []) ⟨"5f1a"⟩
      = (Outcome.status Code.InvalidArgument, World.holding []) ∧
    UpdateBlog Tags.usual (World.holding []) ⟨some ⟨"5f1a", "Z", "New", ""⟩⟩
      = (Outcome.status Code.InvalidArgument, World.holding []) ∧
    DeleteBlog (World.holding []) ⟨"5f1a"⟩
      = (Outcome.status Code.InvalidArgument, World.holding []) :=
  ⟨by decide,
   malformed_id_is_invalid_argument Tags.usual (World.holding []) "5f1a"
     (some ⟨"5f1a", "Z", "New", ""⟩) (by decide) rfl⟩

/-! ## Create, then read -/

theorem Decode_marshalled (tags : Tags) (hc : tags.Coherent) (oid : ObjectID)
    (item zero : BlogItem) :
    Decode tags ⟨.objectID oid, (Marshal tags item).2⟩ zero
      = some ⟨oid, item.AuthorID, item.Title, item.Content⟩ := by
  simp [Decode, Marshal, decodeElems, hc Field.AuthorID, hc Field.Title, hc Field.Content,
    BlogItem.set]

theorem find_append_new (oid : ObjectID) (docs : List Document) (d : Document)
    (hnew : docs.any (Document.hasID oid) = false) (hd : Document.hasID oid d = true) :
    (docs ++ [d]).find? (Document.hasID oid) = some d := by
  induction docs with
  | nil => simp [List.find?, hd]
  | cons x rest ih =>
    simp only [List.any_cons, Bool.or_eq_false_iff] at hnew
    simp [List.find?, hnew.1, ih hnew.2]

/-- C2: if `CreateBlog` succeeds for `(authorId, title, content)` and returns a
record, then `ReadBlog` with the identifier of that record, on the state that
`CreateBlog` left, succeeds and returns that identifier with the same
`authorId`, `title` and `content`. -/
theorem read_after_create (tags : Tags) (hc : tags.Coherent) (newOID : ObjectID) (w w1 : World)
    (id0 a t c : String) (res : CreateBlogRes)
    (hcreate : CreateBlog tags newOID w ⟨some ⟨id0, a, t, c⟩⟩ = (Outcome.ok res, w1)) :
    (ReadBlog tags w1 ⟨res.Blog.Id⟩).1 = Outcome.ok ⟨⟨res.Blog.Id, a, t, c⟩⟩ := by
  unfold CreateBlog at hcreate
  cases hdb : w.globals.handlers.blogDBC with
  | none => simp [hdb] at hcreate
  | some coll =>
    simp only [hdb, Collection.InsertOne, World.record, Marshal, if_true, Option.getD_none,
      Blog.GetAuthorId, Blog.GetTitle, Blog.GetContent] at hcreate
    by_cases hdown : w.store.down = true
    · simp [hdown] at hcreate
    · by_cases hdup : w.store.docs.any (Document.hasID newOID) = true
      · simp [hdown, hdup] at hcreate
      · simp only [hdown, hdup, if_false, Bool.false_eq_true] at hcreate
        simp only [Prod.mk.injEq, Outcome.ok.injEq] at hcreate
        obtain ⟨hres, hw1⟩ := hcreate
        subst hres hw1
        have hdup2 : w.store.docs.any (Document.hasID newOID) = false := by simpa using hdup
        have hdown2 : w.store.down = false := by simpa using hdown
        have hfind := find_append_new newOID w.store.docs
          ⟨.objectID newOID, (Marshal tags ⟨NilObjectID, a, t, c⟩).2⟩ hdup2
          (by simp [Document.hasID])
        have hdec := Decode_marshalled tags hc newOID ⟨NilObjectID, a, t, c⟩ BlogItem.zero
        simp only [Marshal] at hfind hdec
        simp [ReadBlog, ObjectIDFromHex_Hex, hdb, Collection.FindOne, World.record, hdown2,
          hfind, hdec]

theorem read_after_create_witness :
    CreateBlog Tags.usual (oidOf 7) (World.holding []) ⟨some ⟨"", "A", "T1", "C1"⟩⟩
      = (Outcome.ok ⟨⟨"000000000000000000000007", "A", "T1", "C1"⟩⟩,
          ⟨Globals.bound,
           ⟨[⟨.objectID (oidOf 7),
              [("author_id", .string "A"), ("title", .string "T1"), ("content", .string "C1")]⟩],
            false, none⟩,
           [.InsertOne
              [("author_id", .string "A"), ("title", .string "T1"), ("content", .string "C1")]]⟩) ∧
    (ReadBlog Tags.usual
        ⟨Globals.bound,
         ⟨[⟨.objectID (oidOf 7),
            [("author_id", .string "A"), ("title", .string "T1"), ("content", .string "C1")]⟩],
          false, none⟩,
         [.InsertOne
            [("author_id", .string "A"), ("title", .string "T1"), ("content", .string "C1")]]⟩
        ⟨"000000000000000000000007"⟩).1
      = Outcome.ok ⟨⟨"000000000000000000000007", "A", "T1", "C1"⟩⟩ :=
  ⟨by decide,
   read_after_create Tags.usual (by intro f; cases f <;> decide) (oidOf 7) (World.holding []) _
     "" "A" "T1" "C1" ⟨⟨"000000000000000000000007", "A", "T1", "C1"⟩⟩ (by decide)⟩

/-! ## Identifiers without a record -/

theorem find_absent (oid : ObjectID) (docs : List Document)
    (habs : docs.any (Document.hasID oid) = false) :
    docs.find? (Document.hasID oid) = none := by
  induction docs with
  | nil => rfl
  | cons x rest ih =>
    simp only [List.any_cons, Bool.or_eq_false_iff] at habs
    simp [List.find?, habs.1, ih habs.2]

theorem updateFirst_absent (oid : ObjectID) (update : List (String × Value))
    (docs : List Document) (habs : docs.any (Document.hasID oid) = false) :
    updateFirst oid update docs = (none, docs) := by
  induction docs with
  | nil => rfl
  | cons x rest ih =>
    simp only [List.any_cons, Bool.or_eq_false_iff] at habs
    simp [updateFirst, habs.1, ih habs.2]

theorem deleteFirst_absent (oid : ObjectID) (docs : List Document)
    (habs : docs.any (Document.hasID oid) = false) :
    deleteFirst oid docs = (0, docs) := by
  induction docs with
  | nil => rfl
  | cons x rest ih =>
    simp only [List.any_cons, Bool.or_eq_false_iff] at habs
    simp [deleteFirst, habs.1, ih habs.2]

/-- With `blogDBC` of package `handlers` bound, for every store and every
well-formed identifier that no stored document has, `ReadBlog` and `UpdateBlog`
return the status not-found without a response, and both leave the store as it
was: in particular `UpdateBlog` inserts no record. -/
theorem absent_id_is_not_found (tags : Tags) (w : World) (id : String) (oid : ObjectID)
    (blog : Option Blog) (hid : ObjectIDFromHex id = some oid) (hblog : Blog.GetId blog = id)
    (hdb : w.globals.handlers.blogDBC ≠ none)
    (habs : w.store.docs.any (Document.hasID oid) = false) :
    (ReadBlog tags w ⟨id⟩).1 = Outcome.status Code.NotFound ∧
    (ReadBlog tags w ⟨id⟩).2.store = w.store ∧
    (UpdateBlog tags w ⟨blog⟩).1 = Outcome.status Code.NotFound ∧
    (UpdateBlog tags w ⟨blog⟩).2.store = w.store := by
  obtain ⟨g, ⟨docs, down, cb⟩, lg⟩ := w
  simp only at hdb habs ⊢
  cases hcoll : g.handlers.blogDBC with
  | none => exact absurd hcoll hdb
  | some coll =>
    cases down with
    | true =>
      simp [ReadBlog, UpdateBlog, hid, hblog, hcoll, Collection.FindOne,
        Collection.FindOneAndUpdate, World.record]
    | false =>
      simp [ReadBlog, UpdateBlog, hid, hblog, hcoll, Collection.FindOne,
        Collection.FindOneAndUpdate, World.record, find_absent oid _ habs,
        updateFirst_absent oid _ _ habs]

theorem absent_id_is_not_found_witness :
    ObjectIDFromHex "000000000000000000000009" = some (oidOf 9) ∧
    (ReadBlog Tags.usual (World.holding []) ⟨"000000000000000000000009"⟩).1
      = Outcome.status Code.NotFound ∧
    (ReadBlog Tags.usual (World.holding []) ⟨"000000000000000000000009"⟩).2.store
      = (World.holding []).store ∧
    (UpdateBlog Tags.usual (World.holding [])
        ⟨some ⟨"000000000000000000000009", "Z", "New", ""⟩⟩).1
      = Outcome.status Code.NotFound ∧
    (UpdateBlog Tags.usual (World.holding [])
        ⟨some ⟨"000000000000000000000009", "Z", "New", ""⟩⟩).2.store
      = (World.holding []).store :=
  ⟨by decide,
   absent_id_is_not_found Tags.usual (World.holding []) "000000000000000000000009" (oidOf 9)
     (some ⟨"000000000000000000000009", "Z", "New", ""⟩) (by decide) rfl (by decide) rfl⟩

theorem main_serving (env : Startup) (g : Globals) (hmain : main env Globals.zero = some g) :
    g = ⟨⟨none, some ⟨"mydb", "blog"⟩, some ()⟩, ⟨none, none, none⟩⟩ := by
  unfold main at hmain
  split at hmain
  · cases hmain
  · split at hmain
    · cases hmain
    · split at hmain
      · cases hmain
      · simp only [Option.some.injEq] at hmain
        rw [← hmain]
        rfl

/-- C5: in every state the program can be in when `main` has started to serve,
whatever the store holds and whatever was logged, `ReadBlog` and `UpdateBlog`
with a well-formed identifier end in a fault on the nil `blogDBC` of package
`handlers`: they return no status, not-found or other, and make no call on the
store. -/
theorem absent_id_faults_after_main (tags : Tags) (env : Startup) (g : Globals) (store : Store)
    (log : List Event) (id : String) (oid : ObjectID) (blog : Option Blog)
    (hmain : main env Globals.zero = some g) (hid : ObjectIDFromHex id = some oid)
    (hblog : Blog.GetId blog = id) :
    ReadBlog tags ⟨g, store, log⟩ ⟨id⟩ = (Outcome.fault, ⟨g, store, log⟩) ∧
    UpdateBlog tags ⟨g, store, log⟩ ⟨blog⟩ = (Outcome.fault, ⟨g, store, log⟩) := by
  have hg := main_serving env g hmain
  subst hg
  constructor
  · simp [ReadBlog, hid]
  · simp [UpdateBlog, hblog, hid]

theorem absent_id_faults_after_main_witness :
    main ⟨false, false, false⟩ Globals.zero
      = some ⟨⟨none, some ⟨"mydb", "blog"⟩, some ()⟩, ⟨none, none, none⟩⟩ ∧
    ObjectIDFromHex "000000000000000000000009" = some (oidOf 9) ∧
    ReadBlog Tags.usual
        ⟨⟨⟨none, some ⟨"mydb", "blog"⟩, some ()⟩, ⟨none, none, none⟩⟩, ⟨[], false, none⟩, []⟩
        ⟨"000000000000000000000009"⟩
      = (Outcome.fault,
          ⟨⟨⟨none, some ⟨"mydb", "blog"⟩, some ()⟩, ⟨none, none, none⟩⟩,
           ⟨[], false, none⟩, []⟩) ∧
    UpdateBlog Tags.usual
        ⟨⟨⟨none, some ⟨"mydb", "blog"⟩, some ()⟩, ⟨none, none, none⟩⟩, ⟨[], false, none⟩, []⟩
        ⟨some ⟨"000000000000000000000009", "Z", "New", ""⟩⟩
      = (Outcome.fault,
          ⟨⟨⟨none, some ⟨"mydb", "blog"⟩, some ()⟩, ⟨none, none, none⟩⟩,
           ⟨[], false, none⟩, []⟩) :=
  ⟨by decide, by decide,
   absent_id_faults_after_main Tags.usual ⟨false, false, false⟩ _ ⟨[], false, none⟩ []
     "000000000000000000000009" (oidOf 9) (some ⟨"000000000000000000000009", "Z", "New", ""⟩)
     (by decide) (by decide) rfl⟩

/-- C4: in every state whose `blogDBC` is bound and whose store answers the
command, `DeleteBlog` with a well-formed identifier that no stored document has
returns the response with `Success` true, not the status not-found, and leaves
the documents as they were. -/
theorem delete_absent_id_reports_success (w : World) (id : String) (oid : ObjectID)
    (hid : ObjectIDFromHex id = some oid) (hdb : w.globals.handlers.blogDBC ≠ none)
    (hup : w.store.down = false) (habs : w.store.docs.any (Document.hasID oid) = false) :
    (DeleteBlog w ⟨id⟩).1 = Outcome.ok ⟨true⟩ ∧ (DeleteBlog w ⟨id⟩).2.store = w.store := by
  obtain ⟨g, ⟨docs, down, cb⟩, lg⟩ := w
  simp only at hdb hup habs ⊢
  subst hup
  cases hcoll : g.handlers.blogDBC with
  | none => exact absurd hcoll hdb
  | some coll =>
    simp [DeleteBlog, hid, hcoll, Collection.DeleteOne, World.record,
      deleteFirst_absent oid _ habs]

theorem delete_absent_id_reports_success_witness :
    (DeleteBlog (World.holding [storedBlog (oidOf 9) "A" "T1" "C1"])
        ⟨"000000000000000000000009"⟩).1 = Outcome.ok ⟨true⟩ ∧
    (DeleteBlog (World.holding [storedBlog (oidOf 9) "A" "T1" "C1"])
        ⟨"000000000000000000000009"⟩).2.store.docs = [] ∧
    ObjectIDFromHex "000000000000000000000009" = some (oidOf 9) ∧
    (DeleteBlog
        (DeleteBlog (World.holding [storedBlog (oidOf 9) "A" "T1" "C1"])
          ⟨"000000000000000000000009"⟩).2
        ⟨"000000000000000000000009"⟩).1 = Outcome.ok ⟨true⟩ ∧
    (DeleteBlog
        (DeleteBlog (World.holding [storedBlog (oidOf 9) "A" "T1" "C1"])
          ⟨"000000000000000000000009"⟩).2
        ⟨"000000000000000000000009"⟩).2.store
      = (DeleteBlog (World.holding [storedBlog (oidOf 9) "A" "T1" "C1"])
          ⟨"000000000000000000000009"⟩).2.store :=
  ⟨by decide, by decide, by decide,
   delete_absent_id_reports_success
     (DeleteBlog (World.holding [storedBlog (oidOf 9) "A" "T1" "C1"])
       ⟨"000000000000000000000009"⟩).2
     "000000000000000000000009" (oidOf 9) (by decide) (by decide) (by decide) (by decide)⟩

/-! ## Update -/

theorem decodeElems_author (tags : Tags) (elems : List (String × Value)) :
    ∀ item r, decodeElems tags elems item = some r →
      r.AuthorID = authorOf tags elems item.AuthorID := by
  induction elems with
  | nil =>
    intro item r h
    simp [decodeElems] at h
    simp [authorOf, h]
  | cons kv rest ih =>
    obtain ⟨k, v⟩ := kv
    intro item r h
    simp only [decodeElems] at h
    cases hf : tags.fieldOf k with
    | none =>
      simp only [hf] at h
      simp [authorOf, hf, ih item r h]
    | some f =>
      simp only [hf] at h
      cases hv : v.asString with
      | some s =>
        simp only [hv] at h
        have := ih _ r h
        cases f <;> simp [authorOf, hf, hv, this, BlogItem.set]
      | none => simp [hv] at h

theorem authorOf_setElem (tags : Tags) (k : String) (v : Value)
    (hk : tags.fieldOf k ≠ some Field.AuthorID) (elems : List (String × Value)) :
    ∀ a, authorOf tags (setElem k v elems) a = authorOf tags elems a := by
  have hskip : ∀ (w : Value) (rest : List (String × Value)) (a : String),
      authorOf tags ((k, w) :: rest) a = authorOf tags rest a := by
    intro w rest a
    cases hf : tags.fieldOf k with
    | none => simp [authorOf, hf]
    | some f =>
      cases f with
      | AuthorID => exact absurd hf hk
      | Title => simp [authorOf, hf]
      | Content => simp [authorOf, hf]
  induction elems with
  | nil =>
    intro a
    simp only [setElem]
    rw [hskip]
  | cons kv rest ih =>
    obtain ⟨k1, v1⟩ := kv
    intro a
    simp only [setElem]
    by_cases hkk : k1 = k
    · subst hkk
      simp only [if_true]
      rw [hskip, hskip]
    · simp only [hkk, if_false]
      cases hf : tags.fieldOf k1 with
      | none => simp [authorOf, hf, ih]
      | some f => cases f <;> cases hv : v1.asString <;> simp [authorOf, hf, hv, ih]

theorem updateFirst_found (oid : ObjectID) (update : List (String × Value))
    (docs : List Document) :
    ∀ d, docs.find? (Document.hasID oid) = some d →
      updateFirst oid update docs
          = (some { d with elems := setElems update d.elems }, (updateFirst oid update docs).2) ∧
        (updateFirst oid update docs).2.find? (Document.hasID oid)
          = some { d with elems := setElems update d.elems } := by
  induction docs with
  | nil => intro d h; simp at h
  | cons x rest ih =>
    intro d h
    by_cases hx : Document.hasID oid x = true
    · have hxd : x = d := by simpa [List.find?, hx] using h
      subst hxd
      have hx2 : Document.hasID oid { x with elems := setElems update x.elems } = true := by
        simpa [Document.hasID] using hx
      simp [updateFirst, hx, List.find?, hx2]
    · have hx1 : Document.hasID oid x = false := by simpa using hx
      have hrest : rest.find? (Document.hasID oid) = some d := by
        simpa [List.find?, hx1] using h
      obtain ⟨h1, h2⟩ := ih d hrest
      constructor
      · rw [updateFirst]
        simp only [hx1, Bool.false_eq_true, if_false]
        rw [h1]
      · rw [updateFirst]
        simp only [hx1, Bool.false_eq_true, if_false, List.find?]
        exact h2

theorem decodeElems_ID (tags : Tags) (elems : List (String × Value)) :
    ∀ item r, decodeElems tags elems item = some r → r.ID = item.ID := by
  induction elems with
  | nil =>
    intro item r h
    simp [decodeElems] at h
    simp [h]
  | cons kv rest ih =>
    obtain ⟨k, v⟩ := kv
    intro item r h
    simp only [decodeElems] at h
    cases hf : tags.fieldOf k with
    | none =>
      simp only [hf] at h
      exact ih item r h
    | some f =>
      simp only [hf] at h
      cases hv : v.asString with
      | some s =>
        simp only [hv] at h
        have := ih _ r h
        cases f <;> simpa [BlogItem.set] using this
      | none => simp [hv] at h

/-- C3: whenever the tags of `entity.BlogItem` resolve none of the keys
`authord_id`, `title` and `content` to the field `AuthorID`, a successful
`UpdateBlog` on a stored record returns the `authorId` the stored document had
before the call, whatever `authorId` the request carries; a following
`ReadBlog` returns the record `UpdateBlog` returned. -/
theorem update_returns_stored_author (tags : Tags)
    (h1 : tags.fieldOf "authord_id" ≠ some Field.AuthorID)
    (h2 : tags.fieldOf "title" ≠ some Field.AuthorID)
    (h3 : tags.fieldOf "content" ≠ some Field.AuthorID)
    (w w1 : World) (Y : ObjectID) (a t c : String) (d : Document) (res : UpdateBlogRes)
    (hd : w.store.docs.find? (Document.hasID Y) = some d)
    (hupd : UpdateBlog tags w ⟨some ⟨Y.Hex, a, t, c⟩⟩ = (Outcome.ok res, w1)) :
    res.Blog.AuthorId = authorOf tags d.elems "" ∧
    (ReadBlog tags w1 ⟨Y.Hex⟩).1 = Outcome.ok ⟨res.Blog⟩ := by
  obtain ⟨g, ⟨docs, down, cb⟩, lg⟩ := w
  simp only at hd
  have hidY : d.id = IDValue.objectID Y := by
    have := List.find?_some hd
    simpa [Document.hasID] using this
  unfold UpdateBlog at hupd
  simp only [Blog.GetId, ObjectIDFromHex_Hex, Blog.GetAuthorId, Blog.GetTitle,
    Blog.GetContent] at hupd
  cases hcoll : g.handlers.blogDBC with
  | none => simp [hcoll] at hupd
  | some coll =>
    cases down with
    | true => simp [hcoll, Collection.FindOneAndUpdate, World.record] at hupd
    | false =>
      obtain ⟨hu1, hu2⟩ := updateFirst_found Y
        [("authord_id", Value.string a), ("title", Value.string t),
          ("content", Value.string c)] docs d hd
      simp only [hcoll, Collection.FindOneAndUpdate, World.record, Bool.false_eq_true,
        if_false] at hupd
      rw [hu1] at hupd
      simp only [Option.bind_some, Decode, hidY] at hupd
      cases hdec : decodeElems tags
          (setElems [("authord_id", Value.string a), ("title", Value.string t),
            ("content", Value.string c)] d.elems)
          { BlogItem.zero with ID := Y } with
      | none => simp [hdec] at hupd
      | some decoded =>
        simp [hdec] at hupd
        obtain ⟨hres, hw1⟩ := hupd
        subst hres hw1
        have hID : decoded.ID = Y := decodeElems_ID tags _ _ _ hdec
        have hA := decodeElems_author tags _ _ _ hdec
        simp only [setElems, List.foldl, authorOf_setElem tags _ _ h1,
          authorOf_setElem tags _ _ h2, authorOf_setElem tags _ _ h3] at hA
        refine ⟨by simpa [BlogItem.zero] using hA, ?_⟩
        simp [ReadBlog, ObjectIDFromHex_Hex, hcoll, Collection.FindOne, World.record, hu2,
          Decode, hidY, hdec, hID]

theorem update_returns_stored_author_witness :
    (World.holding [storedBlog (oidOf 1) "A" "Old" "Body"]).store.docs.find?
        (Document.hasID (oidOf 1)) = some (storedBlog (oidOf 1) "A" "Old" "Body") ∧
    UpdateBlog Tags.usual (World.holding [storedBlog (oidOf 1) "A" "Old" "Body"])
        ⟨some ⟨(oidOf 1).Hex, "Z", "New", ""⟩⟩
      = (Outcome.ok ⟨⟨"000000000000000000000001", "A", "New", ""⟩⟩,
          ⟨Globals.bound,
           ⟨[⟨.objectID (oidOf 1),
              [("author_id", .string "A"), ("title", .string "New"), ("content", .string ""),
               ("authord_id", .string "Z")]⟩], false, none⟩,
           [.FindOneAndUpdate (oidOf 1)
              [("authord_id", .string "Z"), ("title", .string "New"),
               ("content", .string "")]]⟩) ∧
    (("A" : String) = authorOf Tags.usual (storedBlog (oidOf 1) "A" "Old" "Body").elems "" ∧
     (ReadBlog Tags.usual
        ⟨Globals.bound,
         ⟨[⟨.objectID (oidOf 1),
            [("author_id", .string "A"), ("title", .string "New"), ("content", .string ""),
             ("authord_id", .string "Z")]⟩], false, none⟩,
         [.FindOneAndUpdate (oidOf 1)
            [("authord_id", .string "Z"), ("title", .string "New"),
             ("content", .string "")]]⟩
        ⟨(oidOf 1).Hex⟩).1
       = Outcome.ok ⟨⟨"000000000000000000000001", "A", "New", ""⟩⟩) :=
  ⟨by decide, by decide,
   update_returns_stored_author Tags.usual (by decide) (by decide) (by decide)
     (World.holding [storedBlog (oidOf 1) "A" "Old" "Body"]) _ (oidOf 1) "Z" "New" ""
     (storedBlog (oidOf 1) "A" "Old" "Body") ⟨⟨"000000000000000000000001", "A", "New", ""⟩⟩
     (by decide) (by decide)⟩

/-! ## List -/

theorem sends_append (xs ys : List Event) : sends (xs ++ ys) = sends xs ++ sends ys := by
  induction xs with
  | nil => rfl
  | cons e rest ih => cases e <;> simp [sends, ih]

theorem closes_append (xs ys : List Event) : closes (xs ++ ys) = closes xs + closes ys := by
  simp [closes, List.count_append]

theorem decodeElems_isSome (tags : Tags) (elems : List (String × Value)) :
    ∀ item item2, (decodeElems tags elems item).isSome = (decodeElems tags elems item2).isSome := by
  induction elems with
  | nil => intro item item2; rfl
  | cons kv rest ih =>
    obtain ⟨k, v⟩ := kv
    intro item item2
    simp only [decodeElems]
    cases hf : tags.fieldOf k with
    | none => exact ih _ _
    | some f =>
      cases hv : v.asString with
      | some s => exact ih _ _
      | none => rfl

/-- Whether a document decodes does not depend on the record it is decoded
into. -/
theorem Decode_isSome (tags : Tags) (d : Document) (item item2 : BlogItem) :
    (Decode tags d item).isSome = (Decode tags d item2).isSome := by
  unfold Decode
  cases d.id with
  | objectID o => exact decodeElems_isSome tags _ _ _
  | int32 n => rfl

theorem Decode_ID (tags : Tags) (d : Document) (item r : BlogItem)
    (h : Decode tags d item = some r) : r.ID.Hex = d.hex := by
  unfold Decode at h
  unfold Document.hex
  cases hid : d.id with
  | objectID o =>
    simp only [hid] at h
    have := decodeElems_ID tags _ _ _ h
    simp [this]
  | int32 n => simp [hid] at h

theorem listLoop_closes (tags : Tags) (docs : List Document) :
    ∀ data st, closes (listLoop tags docs data st).events = 0 := by
  induction docs with
  | nil => intro data st; simp [listLoop, closes]
  | cons d rest ih =>
    intro data st
    simp only [listLoop]
    cases hdec : Decode tags d data with
    | none => simp [closes]
    | some data1 =>
      have := ih data1 (st.Send ⟨⟨data1.ID.Hex, data1.AuthorID, data1.Title, data1.Content⟩⟩).2
      simp only [closes] at this
      simp [closes, List.count_cons, this]

theorem listLoop_stops (tags : Tags) (pre post : List Document) (d : Document)
    (hpre : ∀ x ∈ pre, (Decode tags x BlogItem.zero).isSome = true)
    (hd : Decode tags d BlogItem.zero = none) :
    ∀ data st,
      (listLoop tags (pre ++ d :: post) data st).decodeFailed = true ∧
      sends (listLoop tags (pre ++ d :: post) data st).events
        = sends (listLoop tags pre data st).events ∧
      (sends (listLoop tags (pre ++ d :: post) data st).events).map (fun m => m.Blog.Id)
        = pre.map Document.hex := by
  induction pre with
  | nil =>
    intro data st
    have hnone : Decode tags d data = none := by
      have := Decode_isSome tags d data BlogItem.zero
      rw [hd] at this
      cases h : Decode tags d data with
      | none => rfl
      | some r => rw [h] at this; cases this
    simp [listLoop, hnone, sends]
  | cons x rest ih =>
    intro data st
    have hx : (Decode tags x BlogItem.zero).isSome = true := hpre x (List.mem_cons_self _ _)
    have hrest : ∀ y ∈ rest, (Decode tags y BlogItem.zero).isSome = true :=
      fun y hy => hpre y (List.mem_cons_of_mem _ hy)
    cases hdec : Decode tags x data with
    | none =>
      have := Decode_isSome tags x data BlogItem.zero
      rw [hdec, hx] at this
      cases this
    | some data1 =>
      obtain ⟨i1, i2, i3⟩ := ih hrest data1
        (st.Send ⟨⟨data1.ID.Hex, data1.AuthorID, data1.Title, data1.Content⟩⟩).2
      have hidx := Decode_ID tags x data data1 hdec
      simp only [List.cons_append, listLoop, hdec]
      refine ⟨i1, ?_, ?_⟩
      · simp [sends, i2]
      · simp only [sends, List.map_cons, List.cons.injEq]
        exact ⟨hidx, i3⟩

theorem Find_world (w : World) : (Collection.Find w).2 = w.record Event.Find := by
  unfold Collection.Find
  simp only []
  split
  · rfl
  · split <;> rfl

theorem ListBlogs_opened (tags : Tags) (w : World) (stream : Stream) (cursor : Cursor)
    (hdb : w.globals.handlers.blogDBC ≠ none) (hfind : (Collection.Find w).1 = some cursor) :
    ListBlogs tags w stream =
      if (listLoop tags cursor.pending BlogItem.zero stream).decodeFailed = true then
        (Outcome.status Code.Unavailable,
          { w with log := w.log ++ [Event.Find]
              ++ (listLoop tags cursor.pending BlogItem.zero stream).events
              ++ [Event.CursorClose] },
          (listLoop tags cursor.pending BlogItem.zero stream).stream)
      else if cursor.err = true then
        (Outcome.status Code.Internal,
          { w with log := w.log ++ [Event.Find]
              ++ (listLoop tags cursor.pending BlogItem.zero stream).events
              ++ [Event.CursorErr, Event.CursorClose] },
          (listLoop tags cursor.pending BlogItem.zero stream).stream)
      else
        (Outcome.ok (),
          { w with log := w.log ++ [Event.Find]
              ++ (listLoop tags cursor.pending BlogItem.zero stream).events
              ++ [Event.CursorErr, Event.CursorClose] },
          (listLoop tags cursor.pending BlogItem.zero stream).stream) := by
  have hw := Find_world w
  cases hF : Collection.Find w with
  | mk c w1 =>
    rw [hF] at hfind hw
    simp only at hfind hw
    subst hfind hw
    cases hcoll : w.globals.handlers.blogDBC with
    | none => exact absurd hcoll hdb
    | some coll =>
      simp only [ListBlogs, hcoll, hF, World.record]

theorem ListBlogs_closes_once (tags : Tags) (w : World)
    (stream : Stream) (cursor : Cursor) (hdb : w.globals.handlers.blogDBC ≠ none)
    (hfind : (Collection.Find w).1 = some cursor) :
    closes (ListBlogs tags w stream).2.1.log = closes w.log + 1 := by
  rw [ListBlogs_opened tags w stream cursor hdb hfind]
  have hcl := listLoop_closes tags cursor.pending BlogItem.zero stream
  simp only [closes] at hcl
  split
  · simp [closes, List.count_append, hcl]
  · split <;> simp [closes, List.count_append, hcl]

/-- Once the cursor was obtained, `ListBlogs` calls `Close` on it exactly once
before it returns, whatever ends the iteration; and when the cursor holds a
first document that does not decode, `ListBlogs` returns the status unavailable
and has passed to `Send` the messages of the loop over the documents before
that one, which carry the identifiers of these documents in their order, and
none for a later document. -/
theorem ListBlogs_stops_at_undecodable (tags : Tags) (w : World) (stream : Stream)
    (cursor : Cursor) (hdb : w.globals.handlers.blogDBC ≠ none)
    (hfind : (Collection.Find w).1 = some cursor) :
    closes (ListBlogs tags w stream).2.1.log = closes w.log + 1 ∧
    ∀ (pre post : List Document) (d : Document), cursor.pending = pre ++ d :: post →
      (∀ x ∈ pre, (Decode tags x BlogItem.zero).isSome = true) →
      Decode tags d BlogItem.zero = none →
      (ListBlogs tags w stream).1 = Outcome.status Code.Unavailable ∧
      sends (ListBlogs tags w stream).2.1.log
        = sends w.log ++ sends (listLoop tags pre BlogItem.zero stream).events ∧
      (sends (ListBlogs tags w stream).2.1.log).map (fun m => m.Blog.Id)
        = (sends w.log).map (fun m => m.Blog.Id) ++ pre.map Document.hex := by
  rw [ListBlogs_opened tags w stream cursor hdb hfind]
  have hcl := listLoop_closes tags cursor.pending BlogItem.zero stream
  simp only [closes] at hcl
  constructor
  · split
    · simp [closes, List.count_append, hcl]
    · split <;> simp [closes, List.count_append, hcl]
  · intro pre post d hcur hpre hd
    obtain ⟨s1, s2, s3⟩ := listLoop_stops tags pre post d hpre hd BlogItem.zero stream
    rw [hcur]
    simp only [s1, if_true]
    refine ⟨trivial, ?_, ?_⟩
    · simp [sends_append, sends, s2]
    · simp [sends_append, sends, s3]

theorem listLoop_calls (tags : Tags) (docs : List Document) :
    ∀ data st st2,
      (listLoop tags docs data st).decodeFailed = (listLoop tags docs data st2).decodeFailed ∧
      (listLoop tags docs data st).events.map Event.call
        = (listLoop tags docs data st2).events.map Event.call := by
  induction docs with
  | nil => intro data st st2; simp [listLoop]
  | cons d rest ih =>
    intro data st st2
    simp only [listLoop]
    cases hdec : Decode tags d data with
    | none => simp
    | some data1 =>
      obtain ⟨i1, i2⟩ := ih data1
        (st.Send ⟨⟨data1.ID.Hex, data1.AuthorID, data1.Title, data1.Content⟩⟩).2
        (st2.Send ⟨⟨data1.ID.Hex, data1.AuthorID, data1.Title, data1.Content⟩⟩).2
      simp only [List.map_cons, Event.call]
      exact ⟨i1, by rw [i2]⟩

/-- The claim C8 fails on two stored records and a caller that has gone away:
the first `Send` fails, and after it the second record is still taken from the
cursor, decoded and passed to `Send`. -/
theorem list_continues_after_failed_send :
    (ListBlogs Tags.usual (World.holding twoStored) Stream.gone).2.1.log
      = [Event.Find,
         Event.CursorNext, Event.CursorDecode,
         Event.Send ⟨⟨"000000000000000000000001", "A", "T1", "C1"⟩⟩ false,
         Event.CursorNext, Event.CursorDecode,
         Event.Send ⟨⟨"000000000000000000000002", "B", "T2", "C2"⟩⟩ false,
         Event.CursorNext, Event.CursorErr, Event.CursorClose] ∧
    (afterFailedSend (ListBlogs Tags.usual (World.holding twoStored) Stream.gone).2.1.log).any
        Event.fetchesOrSends = true := by
  decide

/-- C8, amended: a failure of `Send` changes nothing in what `ListBlogs` does:
for every state and every stream the outcome and the calls made, on the cursor
and on the stream, are those made on a stream whose caller never goes away, the
store is left as it was, and the cursor, once obtained, is closed exactly
once. -/
theorem list_ignores_send_failure (tags : Tags) (w : World) (stream : Stream) :
    (ListBlogs tags w stream).1 = (ListBlogs tags w { stream with brokenAfter := none }).1 ∧
    (ListBlogs tags w stream).2.1.log.map Event.call
      = (ListBlogs tags w { stream with brokenAfter := none }).2.1.log.map Event.call ∧
    (ListBlogs tags w stream).2.1.store = w.store ∧
    (w.globals.handlers.blogDBC ≠ none → (Collection.Find w).1 ≠ none →
      closes (ListBlogs tags w stream).2.1.log = closes w.log + 1) := by
  cases hcoll : w.globals.handlers.blogDBC with
  | none => simp [ListBlogs, hcoll]
  | some coll =>
    have hdb : w.globals.handlers.blogDBC ≠ none := by simp [hcoll]
    cases hF : (Collection.Find w).1 with
    | none =>
      have hw := Find_world w
      cases hFF : Collection.Find w with
      | mk c w1 =>
        rw [hFF] at hF hw
        simp only at hF hw
        subst hF hw
        simp [ListBlogs, hcoll, hFF, World.record]
    | some cursor =>
      obtain ⟨c1, c2⟩ := listLoop_calls tags cursor.pending BlogItem.zero stream
        { stream with brokenAfter := none }
      have hcl := (ListBlogs_closes_once tags w stream cursor hdb hF)
      rw [ListBlogs_opened tags w stream cursor hdb hF,
        ListBlogs_opened tags w { stream with brokenAfter := none } cursor hdb hF] at *
      rw [← c1]
      refine ⟨?_, ?_, ?_, fun _ _ => hcl⟩
      · split <;> [rfl; (split <;> rfl)]
      · split <;> [skip; split] <;> simp [c2]
      · split <;> [rfl; (split <;> rfl)]

theorem list_ignores_send_failure_witness :
    (World.holding twoStored).globals.handlers.blogDBC ≠ none ∧
    (Collection.Find (World.holding twoStored)).1 ≠ none ∧
    (ListBlogs Tags.usual (World.holding twoStored) Stream.gone).1
      = (ListBlogs Tags.usual (World.holding twoStored)
          { Stream.gone with brokenAfter := none }).1 ∧
    (ListBlogs Tags.usual (World.holding twoStored) Stream.gone).2.1.log.map Event.call
      = (ListBlogs Tags.usual (World.holding twoStored)
          { Stream.gone with brokenAfter := none }).2.1.log.map Event.call ∧
    (ListBlogs Tags.usual (World.holding twoStored) Stream.gone).2.1.store
      = (World.holding twoStored).store ∧
    closes (ListBlogs Tags.usual (World.holding twoStored) Stream.gone).2.1.log
      = closes (World.holding twoStored).log + 1 :=
  ⟨by decide, by decide,
   (list_ignores_send_failure Tags.usual (World.holding twoStored) Stream.gone).1,
   (list_ignores_send_failure Tags.usual (World.holding twoStored) Stream.gone).2.1,
   (list_ignores_send_failure Tags.usual (World.holding twoStored) Stream.gone).2.2.1,
   (list_ignores_send_failure Tags.usual (World.holding twoStored) Stream.gone).2.2.2
     (by decide) (by decide)⟩

/-- C6: on a collection of two records that both decode, the second without an
element for its content, `ListBlogs` returns no error and delivers two
messages, of which the second carries the content of the first record;
`ReadBlog` returns the same second record with the empty content. -/
theorem list_carries_fields_of_previous_record (a1 t1 c1 a2 t2 : String) :
    (Decode Tags.usual (storedBlog (oidOf 1) a1 t1 c1) BlogItem.zero).isSome = true ∧
    (Decode Tags.usual
      ⟨.objectID (oidOf 2), [("author_id", .string a2), ("title", .string t2)]⟩
      BlogItem.zero).isSome = true ∧
    (ListBlogs Tags.usual
        (World.holding [storedBlog (oidOf 1) a1 t1 c1,
          ⟨.objectID (oidOf 2), [("author_id", .string a2), ("title", .string t2)]⟩])
        Stream.fresh).1 = Outcome.ok () ∧
    (ListBlogs Tags.usual
        (World.holding [storedBlog (oidOf 1) a1 t1 c1,
          ⟨.objectID (oidOf 2), [("author_id", .string a2), ("title", .string t2)]⟩])
        Stream.fresh).2.2.delivered
      = [⟨⟨"000000000000000000000001", a1, t1, c1⟩⟩,
         ⟨⟨"000000000000000000000002", a2, t2, c1⟩⟩] ∧
    (ReadBlog Tags.usual
        (World.holding [storedBlog (oidOf 1) a1 t1 c1,
          ⟨.objectID (oidOf 2), [("author_id", .string a2), ("title", .string t2)]⟩])
        ⟨"000000000000000000000002"⟩).1
      = Outcome.ok ⟨⟨"000000000000000000000002", a2, t2, ""⟩⟩ := by
  have k1 : Tags.usual.fieldOf "author_id" = some Field.AuthorID := by decide
  have k2 : Tags.usual.fieldOf "title" = some Field.Title := by decide
  have k3 : Tags.usual.fieldOf "content" = some Field.Content := by decide
  have e1 : (oidOf 1).Hex = "000000000000000000000001" := by decide
  have e2 : (oidOf 2).Hex = "000000000000000000000002" := by decide
  have e3 : ObjectIDFromHex "000000000000000000000002" = some (oidOf 2) := by decide
  have n12 : (IDValue.objectID (oidOf 1) = IDValue.objectID (oidOf 2)) = False := by
    simp only [eq_iff_iff, iff_false]
    decide
  refine ⟨?_, ?_, ?_, ?_, ?_⟩
  · simp [Decode, storedBlog, decodeElems, k1, k2, k3]
  · simp [Decode, decodeElems, k1, k2]
  · simp [ListBlogs, World.holding, Globals.bound, Collection.Find, World.record, listLoop,
      Decode, storedBlog, decodeElems, k1, k2, k3]
  · simp [ListBlogs, World.holding, Globals.bound, Collection.Find, World.record, listLoop,
      Decode, storedBlog, decodeElems, k1, k2, k3, BlogItem.set, BlogItem.zero, Stream.Send,
      Stream.fresh, e1, e2]
  · simp [ReadBlog, e3, World.holding, Globals.bound, Collection.FindOne, World.record,
      List.find?, Document.hasID, storedBlog, n12, Decode, decodeElems, k1, k2, BlogItem.set,
      BlogItem.zero, e2]

/-! ## The package variables -/

theorem CreateBlog_globals (tags : Tags) (newOID : ObjectID) (w : World) (req : CreateBlogReq) :
    (CreateBlog tags newOID w req).2.globals = w.globals := by
  unfold CreateBlog Collection.InsertOne World.record
  simp only []
  split
  · rfl
  · split <;> rename_i h <;> revert h <;> (split <;> [skip; split]) <;> intro h <;>
      simp only [Prod.mk.injEq] at h <;> obtain ⟨_, h2⟩ := h <;> subst h2 <;>
      first | rfl | (split <;> rfl)

theorem ReadBlog_globals (tags : Tags) (w : World) (req : ReadBlogReq) :
    (ReadBlog tags w req).2.globals = w.globals := by
  unfold ReadBlog Collection.FindOne World.record
  simp only []
  split
  · rfl
  · split
    · rfl
    · split <;> split <;> rfl

theorem UpdateBlog_globals (tags : Tags) (w : World) (req : UpdateBlogReq) :
    (UpdateBlog tags w req).2.globals = w.globals := by
  unfold UpdateBlog Collection.FindOneAndUpdate World.record
  simp only []
  split
  · rfl
  · split
    · rfl
    · split <;> split <;> rfl

theorem DeleteBlog_globals (w : World) (req : DeleteBlogReq) :
    (DeleteBlog w req).2.globals = w.globals := by
  unfold DeleteBlog Collection.DeleteOne World.record
  simp only []
  split
  · rfl
  · split
    · rfl
    · split <;> rename_i h <;> revert h <;> split <;> intro h <;>
        simp only [Prod.mk.injEq] at h <;> obtain ⟨_, h2⟩ := h <;> subst h2 <;> rfl

theorem ListBlogs_globals (tags : Tags) (w : World) (stream : Stream) :
    (ListBlogs tags w stream).2.1.globals = w.globals := by
  cases hcoll : w.globals.handlers.blogDBC with
  | none => simp [ListBlogs, hcoll]
  | some coll =>
    have hdb : w.globals.handlers.blogDBC ≠ none := by simp [hcoll]
    have hw := Find_world w
    cases hFF : Collection.Find w with
    | mk c w1 =>
      cases c with
      | none =>
        rw [hFF] at hw
        simp only at hw
        subst hw
        simp [ListBlogs, hcoll, hFF, World.record]
      | some cursor =>
        have hF : (Collection.Find w).1 = some cursor := by rw [hFF]
        rw [ListBlogs_opened tags w stream cursor hdb hF]
        split <;> [rfl; (split <;> rfl)]

theorem serve_globals (tags : Tags) (calls : List Call) :
    ∀ w, (serve tags w calls).globals = w.globals := by
  induction calls with
  | nil => intro w; rfl
  | cons c rest ih =>
    intro w
    have hstep : (serveOne tags w c).globals = w.globals := by
      cases c with
      | Create newOID req => exact CreateBlog_globals tags newOID w req
      | Read req => exact ReadBlog_globals tags w req
      | Update req => exact UpdateBlog_globals tags w req
      | Delete req => exact DeleteBlog_globals w req
      | List stream => exact ListBlogs_globals tags w stream
    simp only [serve, List.foldl] at ih ⊢
    rw [ih, hstep]

/-- C9: when `main` gets as far as serving, it has assigned `mongoCtx` and
`blogDBC` of package `main` and nothing else; `blogDBC` and `mongoCtx` of
package `handlers` are nil then and are still nil after any sequence of calls
of the five handlers; a `CreateBlog` called then ends in a fault, since the
handlers read the variables of their own package. -/
theorem handlers_variables_stay_nil (tags : Tags) (env : Startup) (g : Globals) (store : Store)
    (calls : List Call) (hmain : main env Globals.zero = some g) :
    g.main = ⟨none, some ⟨"mydb", "blog"⟩, some ()⟩ ∧
    g.handlers = ⟨none, none, none⟩ ∧
    (serve tags ⟨g, store, []⟩ calls).globals.handlers.blogDBC = none ∧
    (serve tags ⟨g, store, []⟩ calls).globals.handlers.mongoCtx = none ∧
    ∀ newOID req, (CreateBlog tags newOID (serve tags ⟨g, store, []⟩ calls) req).1
      = Outcome.fault := by
  have hg : g = ⟨⟨none, some ⟨"mydb", "blog"⟩, some ()⟩, ⟨none, none, none⟩⟩ := by
    unfold main at hmain
    split at hmain
    · cases hmain
    · split at hmain
      · cases hmain
      · split at hmain
        · cases hmain
        · simp only [Option.some.injEq] at hmain
          rw [← hmain]
          rfl
  subst hg
  have hs := serve_globals tags calls
    ⟨⟨⟨none, some ⟨"mydb", "blog"⟩, some ()⟩, ⟨none, none, none⟩⟩, store, []⟩
  refine ⟨rfl, rfl, by rw [hs], by rw [hs], ?_⟩
  intro newOID req
  simp [CreateBlog, hs]

theorem handlers_variables_stay_nil_witness :
    main ⟨false, false, false⟩ Globals.zero
      = some ⟨⟨none, some ⟨"mydb", "blog"⟩, some ()⟩, ⟨none, none, none⟩⟩ ∧
    (serve Tags.usual
      ⟨⟨⟨none, some ⟨"mydb", "blog"⟩, some ()⟩, ⟨none, none, none⟩⟩, ⟨[], false, none⟩, []⟩
      [Call.Read ⟨"000000000000000000000001"⟩]).globals.handlers.blogDBC = none :=
  ⟨by decide,
   (handlers_variables_stay_nil Tags.usual ⟨false, false, false⟩ _ ⟨[], false, none⟩
     [Call.Read ⟨"000000000000000000000001"⟩] (by decide)).2.2.1⟩

/-! ## Create without a payload -/

/-- The claim C10 fails for a request without payload on a store that answers
the insert with an error: `CreateBlog` returns the status internal. -/
theorem create_without_payload_returns_status :
    CreateBlog Tags.usual (oidOf 1) ⟨Globals.bound, ⟨[], true, none⟩, []⟩ ⟨none⟩
      = (Outcome.status Code.Internal,
          ⟨Globals.bound, ⟨[], true, none⟩,
           [Event.InsertOne
              [("author_id", .string ""), ("title", .string ""), ("content", .string "")]]⟩) := by
  decide

/-- C10, amended: `CreateBlog` returns a response only for a request that
carries a payload.  For a request without payload, with `blogDBC` bound, the
insert of a record of three empty strings is issued; when the insert succeeds
the record is stored and the handler ends in a fault, returning neither a
response nor a status; when the insert fails the handler returns the status
internal and the store is as it was. -/
theorem create_without_payload (tags : Tags) (newOID : ObjectID) (w : World)
    (hdb : w.globals.handlers.blogDBC ≠ none) :
    (∀ req res, (CreateBlog tags newOID w req).1 = Outcome.ok res → req.Blog ≠ none) ∧
    (CreateBlog tags newOID w ⟨none⟩).2.log
      = w.log ++ [Event.InsertOne
          [(tags.keyOf Field.AuthorID, .string ""), (tags.keyOf Field.Title, .string ""),
           (tags.keyOf Field.Content, .string "")]] ∧
    (w.store.down = false → w.store.docs.any (Document.hasID newOID) = false →
      (CreateBlog tags newOID w ⟨none⟩).1 = Outcome.fault ∧
      (CreateBlog tags newOID w ⟨none⟩).2.store.docs
        = w.store.docs ++ [⟨.objectID newOID,
            [(tags.keyOf Field.AuthorID, .string ""), (tags.keyOf Field.Title, .string ""),
             (tags.keyOf Field.Content, .string "")]⟩]) ∧
    ((w.store.down = true ∨ w.store.docs.any (Document.hasID newOID) = true) →
      (CreateBlog tags newOID w ⟨none⟩).1 = Outcome.status Code.Internal ∧
      (CreateBlog tags newOID w ⟨none⟩).2.store = w.store) := by
  obtain ⟨g, ⟨docs, down, cb⟩, lg⟩ := w
  simp only at hdb ⊢
  cases hcoll : g.handlers.blogDBC with
  | none => exact absurd hcoll hdb
  | some coll =>
    refine ⟨?_, ?_, ?_, ?_⟩
    · intro req res h
      obtain ⟨b⟩ := req
      cases b with
      | none =>
        exfalso
        cases down <;> cases hany : docs.any (Document.hasID newOID) <;>
          simp [CreateBlog, hcoll, Collection.InsertOne, World.record, Marshal, hany] at h
      | some b => simp
    · cases down <;> cases hany : docs.any (Document.hasID newOID) <;>
        simp [CreateBlog, hcoll, Collection.InsertOne, World.record, Marshal, hany,
          Blog.GetAuthorId, Blog.GetTitle, Blog.GetContent]
    · intro hup habs
      subst hup
      simp [CreateBlog, hcoll, Collection.InsertOne, World.record, Marshal, habs,
        Blog.GetAuthorId, Blog.GetTitle, Blog.GetContent]
    · intro h
      cases down with
      | true =>
        simp [CreateBlog, hcoll, Collection.InsertOne, World.record, Marshal]
      | false =>
        have hdup : docs.any (Document.hasID newOID) = true := by simpa using h
        simp [CreateBlog, hcoll, Collection.InsertOne, World.record, Marshal, hdup]

theorem create_without_payload_witness :
    (World.holding []).globals.handlers.blogDBC ≠ none ∧
    (World.holding []).store.down = false ∧
    (World.holding []).store.docs.any (Document.hasID (oidOf 1)) = false ∧
    (CreateBlog Tags.usual (oidOf 1) (World.holding []) ⟨none⟩).1 = Outcome.fault ∧
    (CreateBlog Tags.usual (oidOf 1) (World.holding []) ⟨none⟩).2.store.docs
      = (World.holding []).store.docs ++ [⟨.objectID (oidOf 1),
          [(Tags.usual.keyOf Field.AuthorID, .string ""),
           (Tags.usual.keyOf Field.Title, .string ""),
           (Tags.usual.keyOf Field.Content, .string "")]⟩] :=
  ⟨by decide, rfl, rfl,
   (create_without_payload Tags.usual (oidOf 1) (World.holding []) (by decide)).2.2.1 rfl rfl⟩

/-! ## List on complete records -/

theorem BlogItem.get_set (item : BlogItem) (f g : Field) (s : String) :
    (item.set f s).get g = if g = f then s else item.get g := by
  cases f <;> cases g <;> simp [BlogItem.set, BlogItem.get]

theorem decodeElems_agree (tags : Tags) (f : Field) (elems : List (String × Value)) :
    ∀ item item2 r r2, decodeElems tags elems item = some r →
      decodeElems tags elems item2 = some r2 →
      (elems.any (fun kv => decide (tags.fieldOf kv.1 = some f)) = true ∨
        item.get f = item2.get f) →
      r.get f = r2.get f := by
  induction elems with
  | nil =>
    intro item item2 r r2 h h2 hor
    simp [decodeElems] at h h2
    subst h h2
    simpa using hor
  | cons kv rest ih =>
    obtain ⟨k, v⟩ := kv
    intro item item2 r r2 h h2 hor
    simp only [decodeElems] at h h2
    cases hf : tags.fieldOf k with
    | none =>
      simp only [hf] at h h2
      apply ih item item2 r r2 h h2
      simpa [hf] using hor
    | some g =>
      simp only [hf] at h h2
      cases hv : v.asString with
      | none => simp [hv] at h
      | some s =>
        simp only [hv] at h h2
        apply ih _ _ r r2 h h2
        by_cases hgf : f = g
        · right
          simp [BlogItem.get_set, hgf]
        · have hgf2 : ¬ g = f := fun e => hgf e.symm
          rcases hor with hor | hor
          · left
            simpa [hf, hgf2] using hor
          · right
            simp [BlogItem.get_set, hgf, hor]

theorem BlogItem.ext_get (r r2 : BlogItem) (hid : r.ID = r2.ID)
    (h : ∀ f, r.get f = r2.get f) : r = r2 := by
  obtain ⟨i, a, t, c⟩ := r
  obtain ⟨i2, a2, t2, c2⟩ := r2
  have ha := h Field.AuthorID
  have ht := h Field.Title
  have hc := h Field.Content
  simp only [BlogItem.get] at ha ht hc
  simp only at hid
  subst hid ha ht hc
  rfl

/-- A complete document decodes to the same record whatever the record it is
decoded into held before. -/
theorem Decode_complete (tags : Tags) (d : Document) (hd : d.complete tags = true)
    (item r : BlogItem) (h : Decode tags d item = some r) :
    Decode tags d BlogItem.zero = some r := by
  have hsome := Decode_isSome tags d BlogItem.zero item
  rw [h] at hsome
  cases h0 : Decode tags d BlogItem.zero with
  | none => rw [h0] at hsome; cases hsome
  | some r0 =>
    congr 1
    unfold Decode at h h0
    cases hid : d.id with
    | int32 n => simp [hid] at h
    | objectID o =>
      simp only [hid] at h h0
      apply BlogItem.ext_get
      · rw [decodeElems_ID tags _ _ _ h0, decodeElems_ID tags _ _ _ h]
      · intro f
        apply decodeElems_agree tags f d.elems _ _ r0 r h0 h
        left
        simp only [Document.complete, List.all_cons, List.all_nil, Bool.and_true,
          Bool.and_eq_true] at hd
        cases f
        · exact hd.1
        · exact hd.2.1
        · exact hd.2.2

theorem listLoop_complete (tags : Tags) (docs : List Document)
    (hall : ∀ d ∈ docs, d.complete tags = true ∧ (Decode tags d BlogItem.zero).isSome = true) :
    ∀ data (delivered : List ListBlogsRes) (n : Nat),
      (listLoop tags docs data ⟨delivered, n, none⟩).decodeFailed = false ∧
      ((listLoop tags docs data ⟨delivered, n, none⟩).stream.delivered).map
          (fun m => some m.Blog)
        = delivered.map (fun m => some m.Blog) ++ docs.map (Document.blog tags) := by
  induction docs with
  | nil => intro data delivered n; simp [listLoop]
  | cons d rest ih =>
    intro data delivered n
    obtain ⟨hc, hs⟩ := hall d (List.mem_cons_self _ _)
    have hrest : ∀ x ∈ rest,
        x.complete tags = true ∧ (Decode tags x BlogItem.zero).isSome = true :=
      fun x hx => hall x (List.mem_cons_of_mem _ hx)
    cases hdec : Decode tags d data with
    | none =>
      have := Decode_isSome tags d data BlogItem.zero
      rw [hdec, hs] at this
      cases this
    | some data1 =>
      have h0 := Decode_complete tags d hc data data1 hdec
      obtain ⟨i1, i2⟩ := ih hrest data1
        (delivered ++ [⟨⟨data1.ID.Hex, data1.AuthorID, data1.Title, data1.Content⟩⟩]) (n + 1)
      simp only [listLoop, hdec, Stream.Send]
      refine ⟨i1, ?_⟩
      rw [i2]
      simp [Document.blog, h0]

/-- On a collection whose documents are all complete and decode, with a cursor
that does not break and a caller that stays, `ListBlogs` returns no error and
delivers one message per document, in the order of the collection, each with
the record of that document; on the empty collection it delivers nothing. -/
theorem ListBlogs_complete (tags : Tags) (w : World)
    (hdb : w.globals.handlers.blogDBC ≠ none) (hup : w.store.down = false)
    (hcb : w.store.cursorBreak = none)
    (hall : ∀ d ∈ w.store.docs,
      d.complete tags = true ∧ (Decode tags d BlogItem.zero).isSome = true) :
    (ListBlogs tags w Stream.fresh).1 = Outcome.ok () ∧
    ((ListBlogs tags w Stream.fresh).2.2.delivered).map (fun m => some m.Blog)
      = w.store.docs.map (Document.blog tags) := by
  have hfind : (Collection.Find w).1 = some ⟨w.store.docs, false⟩ := by
    simp [Collection.Find, World.record, hup, hcb]
  obtain ⟨i1, i2⟩ := listLoop_complete tags w.store.docs hall BlogItem.zero [] 0
  rw [ListBlogs_opened tags w Stream.fresh _ hdb hfind]
  simp only [Stream.fresh, i1, Bool.false_eq_true, if_false]
  exact ⟨trivial, by simpa using i2⟩

theorem listLoop_sends_complete (tags : Tags) (docs : List Document)
    (hall : ∀ d ∈ docs, d.complete tags = true ∧ (Decode tags d BlogItem.zero).isSome = true) :
    ∀ data st,
      (sends (listLoop tags docs data st).events).map (fun m => some m.Blog)
        = docs.map (Document.blog tags) := by
  induction docs with
  | nil => intro data st; simp [listLoop, sends]
  | cons d rest ih =>
    intro data st
    obtain ⟨hc, hs⟩ := hall d (List.mem_cons_self _ _)
    have hrest : ∀ x ∈ rest,
        x.complete tags = true ∧ (Decode tags x BlogItem.zero).isSome = true :=
      fun x hx => hall x (List.mem_cons_of_mem _ hx)
    cases hdec : Decode tags d data with
    | none =>
      have := Decode_isSome tags d data BlogItem.zero
      rw [hdec, hs] at this
      cases this
    | some data1 =>
      have h0 := Decode_complete tags d hc data data1 hdec
      have i := ih hrest data1
        (st.Send ⟨⟨data1.ID.Hex, data1.AuthorID, data1.Title, data1.Content⟩⟩).2
      simp only [listLoop, hdec, sends, List.map_cons, i]
      simp [Document.blog, h0]

/-- When the cursor holds complete documents that decode and then a document
that does not decode, `ListBlogs` returns the status unavailable, has passed to
`Send` exactly one message for each document before that one, in their order,
each with the record of its document, and has closed the cursor once. -/
theorem ListBlogs_stops_complete (tags : Tags) (w : World) (stream : Stream) (cursor : Cursor)
    (pre post : List Document) (d : Document)
    (hdb : w.globals.handlers.blogDBC ≠ none) (hfind : (Collection.Find w).1 = some cursor)
    (hcur : cursor.pending = pre ++ d :: post)
    (hpre : ∀ x ∈ pre, x.complete tags = true ∧ (Decode tags x BlogItem.zero).isSome = true)
    (hd : Decode tags d BlogItem.zero = none) :
    (ListBlogs tags w stream).1 = Outcome.status Code.Unavailable ∧
    (sends (ListBlogs tags w stream).2.1.log).map (fun m => some m.Blog)
      = (sends w.log).map (fun m => some m.Blog) ++ pre.map (Document.blog tags) ∧
    closes (ListBlogs tags w stream).2.1.log = closes w.log + 1 := by
  obtain ⟨hcl, hstop⟩ := ListBlogs_stops_at_undecodable tags w stream cursor hdb hfind
  obtain ⟨h1, h2, _⟩ := hstop pre post d hcur (fun x hx => (hpre x hx).2) hd
  refine ⟨h1, ?_, hcl⟩
  rw [h2, List.map_append, listLoop_sends_complete tags pre hpre]

/-- The three documents of which the second does not decode: `ListBlogs`
returns the status unavailable, has passed to `Send` the first record only and
has closed the cursor once. -/
theorem ListBlogs_stops_complete_example :
    (ListBlogs Tags.usual (World.holding threeWithBadSecond) Stream.fresh).1
      = Outcome.status Code.Unavailable ∧
    (sends (ListBlogs Tags.usual (World.holding threeWithBadSecond) Stream.fresh).2.1.log).map
        (fun m => some m.Blog)
      = (sends (World.holding threeWithBadSecond).log).map (fun m => some m.Blog)
          ++ [storedBlog (oidOf 1) "A" "T1" "C1"].map (Document.blog Tags.usual) ∧
    closes (ListBlogs Tags.usual (World.holding threeWithBadSecond) Stream.fresh).2.1.log
      = closes (World.holding threeWithBadSecond).log + 1 :=
  ListBlogs_stops_complete Tags.usual (World.holding threeWithBadSecond) Stream.fresh
    ⟨threeWithBadSecond, false⟩ [storedBlog (oidOf 1) "A" "T1" "C1"]
    [storedBlog (oidOf 3) "C" "T3" "C3"]
    ⟨.objectID (oidOf 2), [("author_id", .string "B"), ("title", .int32 5)]⟩
    (by decide) (by decide) (by decide) (by decide) (by decide)

/-! ## List up to a document that does not decode -/

/-- C7: on a collection of a complete record, a record without an element for
its content and a document that does not decode, `ListBlogs` returns the status
unavailable, closes the cursor once and passes nothing to `Send` for the third
document; of the two messages it has passed to `Send`, the second carries the
content of the first record, not the empty content of the second. -/
theorem list_before_undecodable_carries_previous_content (a1 t1 c1 a2 t2 : String) :
    (twoThenUndecodable a1 t1 c1 a2 t2).map (Document.blog Tags.usual)
      = [some ⟨"000000000000000000000001", a1, t1, c1⟩,
         some ⟨"000000000000000000000002", a2, t2, ""⟩,
         none] ∧
    (ListBlogs Tags.usual (World.holding (twoThenUndecodable a1 t1 c1 a2 t2)) Stream.fresh).1
      = Outcome.status Code.Unavailable ∧
    sends (ListBlogs Tags.usual (World.holding (twoThenUndecodable a1 t1 c1 a2 t2))
        Stream.fresh).2.1.log
      = [⟨⟨"000000000000000000000001", a1, t1, c1⟩⟩,
         ⟨⟨"000000000000000000000002", a2, t2, c1⟩⟩] ∧
    closes (ListBlogs Tags.usual (World.holding (twoThenUndecodable a1 t1 c1 a2 t2))
        Stream.fresh).2.1.log = 1 := by
  have k1 : Tags.usual.fieldOf "author_id" = some Field.AuthorID := by decide
  have k2 : Tags.usual.fieldOf "title" = some Field.Title := by decide
  have k3 : Tags.usual.fieldOf "content" = some Field.Content := by decide
  have e1 : (oidOf 1).Hex = "000000000000000000000001" := by decide
  have e2 : (oidOf 2).Hex = "000000000000000000000002" := by decide
  refine ⟨?_, ?_, ?_, ?_⟩
  · simp [twoThenUndecodable, Document.blog, Decode, storedBlog, decodeElems, k1, k2, k3,
      BlogItem.set, BlogItem.zero, Value.asString, e1, e2]
  · simp [ListBlogs, World.holding, Globals.bound, Collection.Find, World.record, listLoop,
      twoThenUndecodable, Decode, storedBlog, decodeElems, k1, k2, k3, Value.asString]
  · simp [ListBlogs, World.holding, Globals.bound, Collection.Find, World.record, listLoop,
      twoThenUndecodable, Decode, storedBlog, decodeElems, k1, k2, k3, Value.asString,
      BlogItem.set, BlogItem.zero, Stream.Send, Stream.fresh, sends, e1, e2]
  · simp [ListBlogs, World.holding, Globals.bound, Collection.Find, World.record, listLoop,
      twoThenUndecodable, Decode, storedBlog, decodeElems, k1, k2, k3, Value.asString,
      closes]

end BlogService
